import Mathlib

/-!
Verification of the change-detection pipeline of the page-notifier
repository: element extraction (`page_tracker.extract_element`),
normalization (`page_tracker.normalize_html`), the comparator and
notification logic (`main.ChangeDetector._check_for_changes` and
`_notify_change`), and bounded diff generation
(`main.ChangeDetector._generate_diff`).

HTML documents are modelled as trees (`HNode`); BeautifulSoup parsing is a
library boundary, so functions that in Python parse a string receive the
parsed tree alongside the original string.  CSS selector matching (done by
the soupsieve library) is abstracted as a boolean matcher parameter; what the
repository itself contributes — the scoping, ordering, error and
serialization behaviour — is modelled concretely.  Strings are Lean
`String`s; character-level operations (Python `str.strip`, `str.split`,
`str.splitlines`) are modelled explicitly over the underlying `List Char`.
-/

deriving instance DecidableEq for Except

namespace PageNotifier

/-- Whitespace characters stripped by Python `str.strip()` (ASCII range;
Unicode whitespace is out of scope for the tracked claims). -/
def isWS (c : Char) : Bool :=
  c = ' ' || c = '\t' || c = '\n' || c = '\r' || c = '\x0b' || c = '\x0c'

/-- Drop leading whitespace, as in Python `str.lstrip()`. -/
def trimL (l : List Char) : List Char := l.dropWhile isWS

/-- Drop trailing whitespace, as in Python `str.rstrip()`. -/
def trimR (l : List Char) : List Char := (l.reverse.dropWhile isWS).reverse

/-- Python `str.strip()` on a character list. -/
def stripChars (l : List Char) : List Char := trimR (trimL l)

/-- Python `str.strip()` on a string. -/
def pyStrip (s : String) : String := String.mk (stripChars s.data)

/-- Python `str.split("|")`: split on every pipe, keeping empty pieces;
the result is always non-empty. -/
def splitPipeChars : List Char → List (List Char)
  | [] => [[]]
  | '|' :: rest => [] :: splitPipeChars rest
  | c :: rest =>
    match splitPipeChars rest with
    | [] => [[c]]
    | h :: t => (c :: h) :: t

/-- Python `selector_path.split("|")`. -/
def pySplitPipe (s : String) : List String := (splitPipeChars s.data).map String.mk

/-- A parsed HTML node: a text node or an element with a tag name, an
attribute list and children, mirroring the BeautifulSoup tree that
`page_tracker` operates on. -/
inductive HNode where
  | text (s : String)
  | elem (name : String) (attrs : List (String × String)) (children : List HNode)
deriving Repr

/-- First binding of an attribute key, as in the BeautifulSoup attrs dict. -/
def lookupAttr (attrs : List (String × String)) (key : String) : Option String :=
  match attrs with
  | [] => none
  | (k, v) :: rest => if k = key then some v else lookupAttr rest key

/-- Serialization of attributes inside an opening tag. -/
def renderAttrs : List (String × String) → String
  | [] => ""
  | (k, v) :: rest => " " ++ k ++ "=\"" ++ v ++ "\"" ++ renderAttrs rest

mutual

/-- Serialization of a node, modelling Python `str(tag)`: the element tag
with its attributes, its serialized children, and the closing tag. -/
def render : HNode → String
  | .text s => s
  | .elem nm attrs cs =>
    "<" ++ nm ++ renderAttrs attrs ++ ">" ++ renderList cs ++ "</" ++ nm ++ ">"

/-- Serialization of a list of sibling nodes. -/
def renderList : List HNode → String
  | [] => ""
  | n :: rest => render n ++ renderList rest

end

mutual

/-- First node of the subtree rooted at a node (the node itself included)
that the abstract CSS matcher `m` accepts for selector `sel`; document
(pre-)order, text nodes never match.  Models one candidate step of
soupsieve `select_one`. -/
def selNode (m : String → String → List (String × String) → Bool) (sel : String) :
    HNode → Option HNode
  | .text _ => none
  | .elem nm attrs cs =>
    if m sel nm attrs then some (.elem nm attrs cs) else selList m sel cs

/-- First match of `sel` among a forest of sibling subtrees, in document
order.  `selList m sel children` models `tag.select_one(sel)`, which
searches the strict descendants of a tag. -/
def selList (m : String → String → List (String × String) → Bool) (sel : String) :
    List HNode → Option HNode
  | [] => none
  | n :: rest =>
    match selNode m sel n with
    | some x => some x
    | none => selList m sel rest

end

mutual

/-- First element named `body` in the subtree rooted at a node (the node
itself included), in document order. -/
def findBodyN : HNode → Option HNode
  | .text _ => none
  | .elem nm attrs cs =>
    if nm = "body" then some (.elem nm attrs cs) else findBody cs

/-- First element named `body` in the forest, in document order, modelling
`soup.find("body")`. -/
def findBody : List HNode → Option HNode
  | [] => none
  | n :: rest =>
    match findBodyN n with
    | some x => some x
    | none => findBody rest

end

/-- The current element during selector descent: either the whole parsed
document (the BeautifulSoup object) or a single tag. -/
inductive Ctx where
  | doc (nodes : List HNode)
  | node (n : HNode)
deriving Repr

/-- `str(current_element)`: the whole document serializes as the
concatenation of its top-level nodes, a tag as its own markup. -/
def ctxStr : Ctx → String
  | .doc ns => renderList ns
  | .node n => render n

/-- The forest that `select_one` searches from a context: the top-level
nodes of the document, or the children of the current tag. -/
def ctxScope : Ctx → List HNode
  | .doc ns => ns
  | .node (.text _) => []
  | .node (.elem _ _ cs) => cs

/-- The exact `ValueError` message raised by `extract_element`:
`f"Element not found for selector '{selector}' in path '{selector_path}'"`. -/
def errMsg (sel path : String) : String :=
  "Element not found for selector \x27" ++ sel ++ "\x27 in path \x27" ++ path ++ "\x27"

/-- `[s.strip() for s in selector_path.split("|") if s.strip()]`. -/
def parseSelectors (path : String) : List String :=
  ((pySplitPipe path).map pyStrip).filter (fun s => s != "")

/-- The `for selector in selectors` loop of `extract_element`: apply each
selector as a first-match query against the current scope; raise on the
first selector with no match. -/
def applySelectors (m : String → String → List (String × String) → Bool)
    (path : String) : List String → Ctx → Except String Ctx
  | [], c => Except.ok c
  | sel :: rest, c =>
    match selList m sel (ctxScope c) with
    | none => Except.error (errMsg sel path)
    | some found => applySelectors m path rest (Ctx.node found)

/-- `page_tracker.extract_element(html_content, selector_path)` over the
parsed tree `soup` of `html_content`, with CSS matching abstracted as `m`.
Raising `ValueError` is modelled as `Except.error` carrying the message. -/
def extract_element (m : String → String → List (String × String) → Bool)
    (html_content : String) (soup : List HNode) (selector_path : String) :
    Except String String :=
  if selector_path = "" ∨ pyStrip selector_path = "" then
    match findBody soup with
    | none => Except.ok html_content
    | some body => Except.ok (render body)
  else
    Except.map ctxStr (applySelectors m selector_path (parseSelectors selector_path) (Ctx.doc soup))

/-- Modelled from the spec (section 4.1, for the refinement claim about
`extract_element`): "split on `|`, trim whitespace from each segment, drop
empty segments"; then, "starting from the document root, apply each selector
via a first matching descendant query against the current element", failing
"with `ElementNotFound` (carrying the failing selector and the full path)
the moment any step yields no match". -/
def descendSpec (m : String → String → List (String × String) → Bool)
    (path : String) (soup : List HNode) : Except String Ctx :=
  (parseSelectors path).foldlM
    (fun cur sel =>
      match selList m sel (ctxScope cur) with
      | some found => Except.ok (Ctx.node found)
      | none => Except.error (errMsg sel path))
    (Ctx.doc soup)

/-- A tag matched by `soup.find_all(attrs={"type": "hidden"})`: its `type`
attribute equals the literal string `hidden`. -/
def isHidden (attrs : List (String × String)) : Bool :=
  lookupAttr attrs "type" == some "hidden"

mutual

/-- Effect of decomposing a node if it (or a descendant) has
`type="hidden"`: a hidden element disappears with its entire subtree. -/
def removeHiddenN : HNode → List HNode
  | .text s => [.text s]
  | .elem nm attrs cs =>
    if isHidden attrs then [] else [.elem nm attrs (removeHidden cs)]

/-- Effect of decomposing every `type="hidden"` element of a forest: each
such element is dropped together with its entire subtree; everything else
is kept. -/
def removeHidden : List HNode → List HNode
  | [] => []
  | n :: rest => removeHiddenN n ++ removeHidden rest

end

mutual

/-- Does the subtree rooted at a node contain a `type="hidden"` element? -/
def anyHiddenN : HNode → Bool
  | .text _ => false
  | .elem _ attrs cs => isHidden attrs || anyHidden cs

/-- Does the forest contain (at any depth) a `type="hidden"` element? -/
def anyHidden : List HNode → Bool
  | [] => false
  | n :: rest => anyHiddenN n || anyHidden rest

end

mutual

/-- The stripped, non-empty text fragments of a subtree in document order. -/
def textFragsN : HNode → List (List Char)
  | .text s => if stripChars s.data = [] then [] else [stripChars s.data]
  | .elem _ _ cs => textFrags cs

/-- The stripped, non-empty text fragments of a forest in document order:
the strings iterated by `soup.get_text(separator=" ", strip=True)` after
stripping, with whitespace-only fragments dropped. -/
def textFrags : List HNode → List (List Char)
  | [] => []
  | n :: rest => textFragsN n ++ textFrags rest

end

/-- `" ".join(fragments)` on character lists. -/
def joinWS : List (List Char) → List Char
  | [] => []
  | [f] => f
  | f :: g :: rest => f ++ ' ' :: joinWS (g :: rest)

/-- `page_tracker.normalize_html` over the parsed tree of its markup
argument: remove all `type="hidden"` subtrees, then
`soup.get_text(separator=" ", strip=True)`. -/
def normalize_html (soup : List HNode) : String :=
  String.mk (joinWS (textFrags (removeHidden soup)))

/-- Two adjacent whitespace characters somewhere in the list. -/
def hasWSRun : List Char → Bool
  | [] => false
  | [_] => false
  | a :: b :: rest => (isWS a && isWS b) || hasWSRun (b :: rest)

/-- The whitespace-collapse property asserted of `normalize_html` output:
no leading or trailing whitespace and no run of two or more consecutive
whitespace characters. -/
def wsCollapsed (s : String) : Bool := (pyStrip s == s) && !hasWSRun s.data

/-- A concrete CSS matcher used to instantiate the abstract matcher in
witnesses: `#x` matches an element whose `id` attribute is `x`. -/
def matchById (sel _nm : String) (attrs : List (String × String)) : Bool :=
  decide (sel.data.head? = some '#') &&
    (lookupAttr attrs "id" == some (String.mk (sel.data.drop 1)))

/-! ### Diff generation (`ChangeDetector._generate_diff`)

The repository calls `difflib.unified_diff(old_lines, new_lines,
fromfile="Previous", tofile="Current", lineterm="", n=2)` and then truncates
the resulting line list.  `difflib` is standard-library code, modelled here
by its documented behaviour: a longest-common-subsequence opcode pass,
grouping with 2 context lines, and the unified output format with empty
`lineterm` (so header and `@@` lines carry no newline). -/

/-- Line-boundary characters of Python `str.splitlines`. -/
def isLineBreak (c : Char) : Bool :=
  c = '\n' || c = '\r' || c = '\x0b' || c = '\x0c' || c = '\x1c' || c = '\x1d' ||
    c = '\x1e' || c = '\x85' || c = '\u2028' || c = '\u2029'

/-- Split off the first line, keeping its terminator (`\r\n` kept whole),
returning the line and the remainder. -/
def takeLine : List Char → List Char × List Char
  | [] => ([], [])
  | c :: rest =>
    if c = '\r' then
      match rest with
      | d :: rest2 => if d = '\n' then (['\r', '\n'], rest2) else (['\r'], d :: rest2)
      | [] => (['\r'], [])
    else if isLineBreak c then ([c], rest)
    else
      let p := takeLine rest
      (c :: p.1, p.2)

/-- Python `str.splitlines(keepends=True)`; the fuel is an upper bound on
the number of lines and is instantiated with the full character count. -/
def splitLinesF : Nat → List Char → List (List Char)
  | _, [] => []
  | 0, l => [l]
  | fuel + 1, c :: rest =>
    let p := takeLine (c :: rest)
    p.1 :: splitLinesF fuel p.2

/-- `content.splitlines(keepends=True)`. -/
def pySplitlines (s : String) : List String :=
  (splitLinesF s.data.length s.data).map String.mk

/-- One elementary edit step relating the two line sequences. -/
inductive RawOp where
  | del
  | ins
  | eq
deriving Repr, DecidableEq

/-- Longest-common-subsequence edit script between two line lists (the
matching pass of `difflib.SequenceMatcher`, without its junk heuristics,
which the normalized single-line inputs never trigger).  The fuel is an
upper bound on the recursion depth and is instantiated with the summed
lengths. -/
def lcsOpsF : Nat → List String → List String → List RawOp
  | _, [], bs => bs.map (fun _ => RawOp.ins)
  | _, a :: as, [] => (a :: as).map (fun _ => RawOp.del)
  | 0, _, _ => []
  | fuel + 1, a :: as, b :: bs =>
    if a = b then RawOp.eq :: lcsOpsF fuel as bs
    else
      let dOps := lcsOpsF fuel as (b :: bs)
      let iOps := lcsOpsF fuel (a :: as) bs
      if dOps.length ≤ iOps.length then RawOp.del :: dOps else RawOp.ins :: iOps

/-- Edit script between two line lists. -/
def lcsOps (a b : List String) : List RawOp := lcsOpsF (a.length + b.length) a b

/-- Opcode tags of `difflib.SequenceMatcher.get_opcodes`. -/
inductive DTag where
  | equal
  | replace
  | delete
  | insert
deriving Repr, DecidableEq

/-- An opcode `(tag, i1, i2, j1, j2)`:  `a[i1:i2]` relates to `b[j1:j2]`. -/
structure Opcode where
  tag : DTag
  i1 : Nat
  i2 : Nat
  j1 : Nat
  j2 : Nat
deriving Repr, DecidableEq

/-- Turn the elementary edit script into maximal opcodes: runs of `eq`
become `equal` opcodes, maximal mixed runs of `del`/`ins` become one
`replace`/`delete`/`insert` opcode, as `get_opcodes` yields one opcode per
gap between matching blocks. -/
def toOpcodesF : Nat → Nat → Nat → List RawOp → List Opcode
  | _, _, _, [] => []
  | 0, _, _, _ :: _ => []
  | fuel + 1, i, j, RawOp.eq :: rest =>
    let n := 1 + (rest.takeWhile (fun o => o == RawOp.eq)).length
    Opcode.mk DTag.equal i (i + n) j (j + n) ::
      toOpcodesF fuel (i + n) (j + n) (rest.dropWhile (fun o => o == RawOp.eq))
  | fuel + 1, i, j, op :: rest =>
    let run := op :: rest.takeWhile (fun o => !(o == RawOp.eq))
    let d := run.count RawOp.del
    let n := run.count RawOp.ins
    let tag := if d ≠ 0 ∧ n ≠ 0 then DTag.replace
      else if d ≠ 0 then DTag.delete else DTag.insert
    Opcode.mk tag i (i + d) j (j + n) ::
      toOpcodesF fuel (i + d) (j + n) (rest.dropWhile (fun o => !(o == RawOp.eq)))

/-- `SequenceMatcher.get_opcodes()` over the edit script. -/
def toOpcodes (ops : List RawOp) : List Opcode := toOpcodesF ops.length 0 0 ops

/-- `get_grouped_opcodes`: clamp a leading `equal` opcode to `n` context
lines. -/
def adjustFirst (n : Nat) : List Opcode → List Opcode
  | [] => []
  | c :: rest =>
    (if c.tag == DTag.equal then
      Opcode.mk c.tag (max c.i1 (c.i2 - n)) c.i2 (max c.j1 (c.j2 - n)) c.j2
    else c) :: rest

/-- `get_grouped_opcodes`: clamp a trailing `equal` opcode to `n` context
lines. -/
def adjustLast (n : Nat) : List Opcode → List Opcode
  | [] => []
  | [c] =>
    [if c.tag == DTag.equal then
      Opcode.mk c.tag c.i1 (min c.i2 (c.i1 + n)) c.j1 (min c.j2 (c.j1 + n))
    else c]
  | c :: d :: rest => c :: adjustLast n (d :: rest)

/-- The grouping loop of `get_grouped_opcodes`: split at `equal` opcodes
spanning more than `2 n` lines; drop a final group that is a single `equal`
opcode. -/
def groupScan (n : Nat) (group : List Opcode) : List Opcode → List (List Opcode)
  | [] =>
    match group with
    | [] => []
    | [g] => if g.tag == DTag.equal then [] else [[g]]
    | g1 :: g2 :: gs => [g1 :: g2 :: gs]
  | c :: rest =>
    if c.tag == DTag.equal ∧ c.i2 - c.i1 > n + n then
      (group ++ [Opcode.mk c.tag c.i1 (min c.i2 (c.i1 + n)) c.j1 (min c.j2 (c.j1 + n))]) ::
        groupScan n [Opcode.mk c.tag (max c.i1 (c.i2 - n)) c.i2 (max c.j1 (c.j2 - n)) c.j2] rest
    else groupScan n (group ++ [c]) rest

/-- `difflib.SequenceMatcher.get_grouped_opcodes(n)`. -/
def groupedOpcodes (n : Nat) (codes0 : List Opcode) : List (List Opcode) :=
  let codes1 := if codes0.isEmpty then [Opcode.mk DTag.equal 0 1 0 1] else codes0
  groupScan n [] (adjustLast n (adjustFirst n codes1))

/-- The ten decimal digit characters. -/
def digitChars : List Char := ['0', '1', '2', '3', '4', '5', '6', '7', '8', '9']

/-- The decimal digit character for `d < 10`. -/
def digitChar (d : Nat) : Char := digitChars.getD d '0'

/-- Decimal digits of a positive number, most significant first; the fuel
bounds the number of digits and is instantiated with the number itself. -/
def natReprAux : Nat → Nat → List Char
  | 0, _ => []
  | _, 0 => []
  | fuel + 1, n => natReprAux fuel (n / 10) ++ [digitChar (n % 10)]

/-- Python `str(n)` for a natural number. -/
def natRepr (n : Nat) : String :=
  if n = 0 then "0" else String.mk (natReprAux n n)

/-- `difflib._format_range_unified(start, stop)`. -/
def formatRangeUnified (start stop : Nat) : String :=
  let len := stop - start
  if len = 1 then natRepr (start + 1)
  else natRepr (if len = 0 then start else start + 1) ++ "," ++ natRepr len

/-- Python slice `l[i:j]`. -/
def sliceList {α : Type} (l : List α) (i j : Nat) : List α := (l.drop i).take (j - i)

/-- The prefixed content lines that one opcode contributes to the unified
output (`" "`, `"-"`, `"+"` prefixes; a `replace` emits its deletions and
then its insertions). -/
def opLines (a b : List String) (c : Opcode) : List String :=
  match c.tag with
  | DTag.equal => (sliceList a c.i1 c.i2).map (fun s => " " ++ s)
  | DTag.delete => (sliceList a c.i1 c.i2).map (fun s => "-" ++ s)
  | DTag.insert => (sliceList b c.j1 c.j2).map (fun s => "+" ++ s)
  | DTag.replace =>
    (sliceList a c.i1 c.i2).map (fun s => "-" ++ s) ++
      (sliceList b c.j1 c.j2).map (fun s => "+" ++ s)

/-- One hunk of the unified output: the `@@` header (no trailing newline,
as `lineterm=""`) followed by the prefixed content lines. -/
def formatGroup (a b : List String) (g : List Opcode) : List String :=
  match g with
  | [] => []
  | first :: rest =>
    let last := (first :: rest).getLastD first
    ("@@ -" ++ formatRangeUnified first.i1 last.i2 ++ " +" ++
        formatRangeUnified first.j1 last.j2 ++ " @@") ::
      ((first :: rest).map (opLines a b)).flatten

/-- `difflib.unified_diff(a, b, fromfile="Previous", tofile="Current",
lineterm="", n=2)` as a list of lines: the two file headers (emitted once,
before the first group, with no trailing newline) followed by each hunk. -/
def unifiedDiff (a b : List String) : List String :=
  let groups := groupedOpcodes 2 (toOpcodes (lcsOps a b))
  match groups with
  | [] => []
  | _ :: _ => "--- Previous" :: "+++ Current" :: (groups.map (formatGroup a b)).flatten

/-- The `diff_lines` list of `_generate_diff` before truncation. -/
def diffLinesOf (old_content new_content : String) : List String :=
  unifiedDiff (pySplitlines old_content) (pySplitlines new_content)

/-- The marker appended when the diff is truncated:
`f"\n... (truncated, showing first {max_lines} lines)"`. -/
def truncMarker (max_lines : Nat) : String :=
  "\n... (truncated, showing first " ++ natRepr max_lines ++ " lines)"

/-- The final line list of `_generate_diff`: truncated to `max_lines`
entries with the marker appended when over the cap. -/
def finalDiffLines (old_content new_content : String) (max_lines : Nat) : List String :=
  let diff_lines := diffLinesOf old_content new_content
  if diff_lines.length > max_lines then
    diff_lines.take max_lines ++ [truncMarker max_lines]
  else diff_lines

/-- Python `"".join(lines)`. -/
def concatAll : List String → String
  | [] => ""
  | s :: rest => s ++ concatAll rest

/-- `ChangeDetector._generate_diff(old_content, new_content, max_lines)`:
the joined final line list (the join uses the empty string, the content
lines keeping their own terminators and `lineterm=""` stripping them from
headers). -/
def generate_diff (old_content new_content : String) (max_lines : Nat := 30) : String :=
  concatAll (finalDiffLines old_content new_content max_lines)

/-- Number of text lines a string spans: one more than the number of
newline characters it contains. -/
def numLines (s : String) : Nat := s.data.count '\n' + 1

/-! ### Comparator and notification (`ChangeDetector._check_for_changes`)

One poll cycle is modelled as a pure transition on the detector state.  The
HTTP fetch outcome is an `Option String` (`_fetch_page` returns `None` on
failure, incrementing the error count).  The extract-and-normalize step —
`normalize_html(extract_element(html, selector))`, whose `ValueError` is
caught — is abstracted as a `String → Except String String` parameter since
it goes through the external parser.  Side effects that matter to the
claims are recorded as an ordered event trace: the baseline assignment
`self._previous_content = normalized_content` happens strictly before
`await self._notify_change(...)`, and the notifier call (made only when a
webhook is configured, and wrapped in `try/except`) is recorded with its
delivery outcome, which influences nothing else. -/

/-- The mutable detector state relevant to change detection. -/
structure PollState where
  previous_content : Option String
  success_count : Nat
  error_count : Nat
deriving Repr, DecidableEq

/-- Ordered observable actions of one cycle. -/
inductive Event where
  | storeBaseline (content : String)
  | notifyAttempt (old_content new_content : String) (delivered : Bool)
deriving Repr, DecidableEq

/-- The events of `_notify_change`: an attempt when a notifier is
configured (its failure is caught and logged), nothing otherwise. -/
def notifyEvents (hasNotifier delivered : Bool) (old_content new_content : String) :
    List Event :=
  if hasNotifier then [Event.notifyAttempt old_content new_content delivered] else []

/-- One cycle of `_check_for_changes`: returns the next state, the boolean
the coroutine returns, and the event trace of the cycle. -/
def check_for_changes (processPage : String → Except String String)
    (hasNotifier delivered : Bool) (st : PollState) (fetched : Option String) :
    PollState × Bool × List Event :=
  match fetched with
  | none => (PollState.mk st.previous_content st.success_count (st.error_count + 1), false, [])
  | some html =>
    let st1 := PollState.mk st.previous_content (st.success_count + 1) st.error_count
    match processPage html with
    | Except.error _ =>
      (PollState.mk st1.previous_content st1.success_count (st1.error_count + 1), false, [])
    | Except.ok normalized_content =>
      match st1.previous_content with
      | none =>
        (PollState.mk (some normalized_content) st1.success_count st1.error_count, false, [])
      | some prev =>
        if normalized_content ≠ prev then
          (PollState.mk (some normalized_content) st1.success_count st1.error_count, true,
            Event.storeBaseline normalized_content ::
              notifyEvents hasNotifier delivered prev normalized_content)
        else (st1, false, [])

/-- The polling loop restricted to a finite input schedule: every cycle
runs to completion whatever its fetch and delivery outcomes, so the loop
processes the whole schedule. -/
def runLoop (processPage : String → Except String String) (hasNotifier : Bool) :
    PollState → List (Option String × Bool) → PollState × List (Bool × List Event)
  | st, [] => (st, [])
  | st, (fetched, delivered) :: rest =>
    let r := check_for_changes processPage hasNotifier delivered st fetched
    let tail := runLoop processPage hasNotifier r.1 rest
    (tail.1, (r.2.1, r.2.2) :: tail.2)

/-! ## Theorems -/

/-- The loop processes every scheduled cycle: no fetch, extraction or
delivery outcome shortens the run. -/
theorem runLoop_length (processPage : String → Except String String) (hasNotifier : Bool) :
    ∀ (st : PollState) (schedule : List (Option String × Bool)),
      (runLoop processPage hasNotifier st schedule).2.length = schedule.length := by
  intro st schedule
  induction schedule generalizing st with
  | nil => rfl
  | cons x rest ih =>
    cases x with
    | mk fetched delivered => simp [runLoop, ih]

/-- Claim C1: for every stored baseline and every subsequent cycle in which
fetch and extraction both succeed, the comparator reports a change if and
only if the new normalized text differs from the stored baseline as a plain
string; when they are exactly equal, no change is reported and no
notification is dispatched (the cycle's event trace is empty). -/
theorem claim1_change_iff_differs (processPage : String → Except String String)
    (hasNotifier delivered : Bool) (st : PollState) (html norm prev : String)
    (hextract : processPage html = Except.ok norm)
    (hbase : st.previous_content = some prev) :
    ((check_for_changes processPage hasNotifier delivered st (some html)).2.1 = true ↔
      norm ≠ prev) ∧
    (norm = prev →
      (check_for_changes processPage hasNotifier delivered st (some html)).2.2 = []) := by
  by_cases h : norm = prev
  · subst h
    simp [check_for_changes, hextract, hbase]
  · simp [check_for_changes, hextract, hbase, h]

/-- Witness for C1 at a concrete equal-content cycle. -/
theorem claim1_change_iff_differs_witness :
    (((check_for_changes (fun _ => Except.ok "x") true true
        (PollState.mk (some "x") 0 0) (some "h")).2.1 = true) ↔ ("x" : String) ≠ "x") ∧
    (("x" : String) = "x" →
      (check_for_changes (fun _ => Except.ok "x") true true
        (PollState.mk (some "x") 0 0) (some "h")).2.2 = []) :=
  claim1_change_iff_differs (fun _ => Except.ok "x") true true
    (PollState.mk (some "x") 0 0) "h" "x" "x" rfl rfl

/-- Claim C2: on a successful cycle with no stored baseline, the comparator
stores the normalized text as the baseline and reports no change, whatever
the content, and dispatches no notification. -/
theorem claim2_first_cycle_stores_silently (processPage : String → Except String String)
    (hasNotifier delivered : Bool) (st : PollState) (html norm : String)
    (hextract : processPage html = Except.ok norm)
    (hbase : st.previous_content = none) :
    (check_for_changes processPage hasNotifier delivered st (some html)).2.1 = false ∧
    (check_for_changes processPage hasNotifier delivered st (some html)).1.previous_content =
      some norm ∧
    (check_for_changes processPage hasNotifier delivered st (some html)).2.2 = [] := by
  simp [check_for_changes, hextract, hbase]

/-- Witness for C2 at a concrete first cycle. -/
theorem claim2_first_cycle_stores_silently_witness :
    (check_for_changes (fun _ => Except.ok "anything") true true
      (PollState.mk none 0 0) (some "h")).2.1 = false ∧
    (check_for_changes (fun _ => Except.ok "anything") true true
      (PollState.mk none 0 0) (some "h")).1.previous_content = some "anything" ∧
    (check_for_changes (fun _ => Except.ok "anything") true true
      (PollState.mk none 0 0) (some "h")).2.2 = [] :=
  claim2_first_cycle_stores_silently (fun _ => Except.ok "anything") true true
    (PollState.mk none 0 0) "h" "anything" rfl rfl

/-- Claim C3: on a detected change the baseline is replaced with the new
normalized text strictly before the notification attempt (the trace is the
baseline store followed by the attempt); the delivery outcome changes
neither the resulting state nor the reported flag and never shortens the
loop; and a later successful cycle yielding the same normalized text
reports no change and dispatches nothing, so the change is not re-notified. -/
theorem claim3_baseline_committed_before_notify
    (processPage : String → Except String String) (hasNotifier delivered : Bool)
    (st : PollState) (html norm prev : String)
    (hextract : processPage html = Except.ok norm)
    (hbase : st.previous_content = some prev) (hne : norm ≠ prev) :
    (check_for_changes processPage hasNotifier delivered st (some html)).2.1 = true ∧
    (check_for_changes processPage hasNotifier delivered st (some html)).1.previous_content =
      some norm ∧
    (check_for_changes processPage hasNotifier delivered st (some html)).2.2 =
      Event.storeBaseline norm :: notifyEvents hasNotifier delivered prev norm ∧
    (∀ delivered2 : Bool,
      (check_for_changes processPage hasNotifier delivered2 st (some html)).1 =
        (check_for_changes processPage hasNotifier delivered st (some html)).1 ∧
      (check_for_changes processPage hasNotifier delivered2 st (some html)).2.1 =
        (check_for_changes processPage hasNotifier delivered st (some html)).2.1) ∧
    (∀ (processPage2 : String → Except String String) (html2 : String) (delivered2 : Bool),
      processPage2 html2 = Except.ok norm →
      (check_for_changes processPage2 hasNotifier delivered2
        (check_for_changes processPage hasNotifier delivered st (some html)).1
        (some html2)).2.1 = false ∧
      (check_for_changes processPage2 hasNotifier delivered2
        (check_for_changes processPage hasNotifier delivered st (some html)).1
        (some html2)).2.2 = []) ∧
    (∀ (st2 : PollState) (schedule : List (Option String × Bool)),
      (runLoop processPage hasNotifier st2 schedule).2.length = schedule.length) := by
  refine ⟨?_, ?_, ?_, ?_, ?_, ?_⟩
  · simp [check_for_changes, hextract, hbase, hne]
  · simp [check_for_changes, hextract, hbase, hne]
  · simp [check_for_changes, hextract, hbase, hne]
  · intro delivered2
    constructor <;> simp [check_for_changes, hextract, hbase, hne]
  · intro processPage2 html2 delivered2 hextract2
    constructor <;> simp [check_for_changes, hextract, hbase, hne, hextract2]
  · intro st2 schedule
    exact runLoop_length processPage hasNotifier st2 schedule

/-- Witness for C3 at a concrete changed cycle with a failing delivery. -/
theorem claim3_baseline_committed_before_notify_witness :
    (check_for_changes (fun _ => Except.ok "new") true false
      (PollState.mk (some "old") 1 0) (some "h")).2.1 = true ∧
    (check_for_changes (fun _ => Except.ok "new") true false
      (PollState.mk (some "old") 1 0) (some "h")).1.previous_content = some "new" ∧
    (check_for_changes (fun _ => Except.ok "new") true false
      (PollState.mk (some "old") 1 0) (some "h")).2.2 =
      Event.storeBaseline "new" :: notifyEvents true false "old" "new" ∧
    (∀ delivered2 : Bool,
      (check_for_changes (fun _ => Except.ok "new") true delivered2
        (PollState.mk (some "old") 1 0) (some "h")).1 =
        (check_for_changes (fun _ => Except.ok "new") true false
          (PollState.mk (some "old") 1 0) (some "h")).1 ∧
      (check_for_changes (fun _ => Except.ok "new") true delivered2
        (PollState.mk (some "old") 1 0) (some "h")).2.1 =
        (check_for_changes (fun _ => Except.ok "new") true false
          (PollState.mk (some "old") 1 0) (some "h")).2.1) ∧
    (∀ (processPage2 : String → Except String String) (html2 : String) (delivered2 : Bool),
      processPage2 html2 = Except.ok "new" →
      (check_for_changes processPage2 true delivered2
        (check_for_changes (fun _ => Except.ok "new") true false
          (PollState.mk (some "old") 1 0) (some "h")).1 (some html2)).2.1 = false ∧
      (check_for_changes processPage2 true delivered2
        (check_for_changes (fun _ => Except.ok "new") true false
          (PollState.mk (some "old") 1 0) (some "h")).1 (some html2)).2.2 = []) ∧
    (∀ (st2 : PollState) (schedule : List (Option String × Bool)),
      (runLoop (fun _ => Except.ok "new") true st2 schedule).2.length = schedule.length) :=
  claim3_baseline_committed_before_notify (fun _ => Except.ok "new") true false
    (PollState.mk (some "old") 1 0) "h" "new" "old" rfl rfl (by decide)

/-! ### Extractor lemmas -/

/-- The explicit selector loop is the left fold that the spec describes. -/
theorem applySelectors_eq_foldlM (m : String → String → List (String × String) → Bool)
    (path : String) :
    ∀ (sels : List String) (c : Ctx),
      applySelectors m path sels c =
        sels.foldlM (fun cur sel =>
          match selList m sel (ctxScope cur) with
          | some found => Except.ok (Ctx.node found)
          | none => Except.error (errMsg sel path)) c := by
  intro sels
  induction sels with
  | nil =>
    intro c
    rfl
  | cons s rest ih =>
    intro c
    rw [List.foldlM_cons]
    rw [show applySelectors m path (s :: rest) c =
        (match selList m s (ctxScope c) with
         | none => Except.error (errMsg s path)
         | some found => applySelectors m path rest (Ctx.node found)) from rfl]
    cases hs : selList m s (ctxScope c) with
    | none => rfl
    | some found => exact ih (Ctx.node found)

/-- The selector loop can only fail with the not-found message of one of
the selectors in its list, paired with the full path. -/
theorem applySelectors_error (m : String → String → List (String × String) → Bool)
    (path : String) :
    ∀ (sels : List String) (c : Ctx) (e : String),
      applySelectors m path sels c = Except.error e →
      ∃ sel ∈ sels, e = errMsg sel path := by
  intro sels
  induction sels with
  | nil =>
    intro c e h
    simp [applySelectors] at h
  | cons s rest ih =>
    intro c e h
    rw [show applySelectors m path (s :: rest) c =
        (match selList m s (ctxScope c) with
         | none => Except.error (errMsg s path)
         | some found => applySelectors m path rest (Ctx.node found)) from rfl] at h
    cases hs : selList m s (ctxScope c) with
    | none =>
      rw [hs] at h
      simp only [Except.error.injEq] at h
      exact ⟨s, by simp, h.symm⟩
    | some found =>
      rw [hs] at h
      obtain ⟨sel, hmem, he⟩ := ih (Ctx.node found) e h
      exact ⟨sel, List.mem_cons_of_mem s hmem, he⟩

/-- `Except.map` produces an error only from the same underlying error. -/
theorem exceptMap_error {α β γ : Type} (f : α → β) (x : Except γ α) (e : γ)
    (h : Except.map f x = Except.error e) : x = Except.error e := by
  cases x with
  | error err => simpa [Except.map] using h
  | ok a => simp [Except.map] at h

/-- Whatever `findBody` returns is an element whose tag name is `body`. -/
theorem findBody_shape (l : List HNode) (b : HNode) (h : findBody l = some b) :
    ∃ attrs cs, b = HNode.elem "body" attrs cs := by
  refine findBody.induct
    (fun n => ∀ b, findBodyN n = some b → ∃ attrs cs, b = HNode.elem "body" attrs cs)
    (fun l => ∀ b, findBody l = some b → ∃ attrs cs, b = HNode.elem "body" attrs cs)
    ?_ ?_ ?_ ?_ ?_ ?_ l b h
  · intro s b hb
    simp [findBodyN] at hb
  · intro attrs cs b hb
    rw [show findBodyN (HNode.elem "body" attrs cs) =
        some (HNode.elem "body" attrs cs) from rfl] at hb
    injection hb with hb
    exact ⟨attrs, cs, hb.symm⟩
  · intro nm attrs cs hnm ih b hb
    simp only [findBodyN, if_neg hnm] at hb
    exact ih b hb
  · intro b hb
    simp [findBody] at hb
  · intro n rest x hx ih b hb
    rw [show findBody (n :: rest) =
        (match findBodyN n with
         | some x => some x
         | none => findBody rest) from rfl, hx] at hb
    simp only [Option.some.injEq] at hb
    exact ih b (hb ▸ hx)
  · intro n rest hnone ih1 ih2 b hb
    rw [show findBody (n :: rest) =
        (match findBodyN n with
         | some x => some x
         | none => findBody rest) from rfl, hnone] at hb
    exact ih2 b hb

/-- Claim C4: for every non-empty selector path, `extract_element` splits
the path on `|`, trims each segment, drops the empty ones, and applies each
remaining selector in order as a first-match query scoped to the previous
match's subtree — it coincides with the fold `descendSpec` transcribed from
the spec — and whenever it fails it fails with the element-not-found
message naming one of the parsed selectors together with the full original
path, returning no partial result. -/
theorem claim4_selector_descent (m : String → String → List (String × String) → Bool)
    (html : String) (soup : List HNode) (path : String)
    (hpath : ¬(path = "" ∨ pyStrip path = "")) :
    extract_element m html soup path = Except.map ctxStr (descendSpec m path soup) ∧
    (∀ e, extract_element m html soup path = Except.error e →
      ∃ sel ∈ parseSelectors path, e = errMsg sel path) := by
  constructor
  · rw [extract_element, if_neg hpath, descendSpec, ← applySelectors_eq_foldlM]
  · intro e he
    rw [extract_element, if_neg hpath] at he
    exact applySelectors_error m path (parseSelectors path) (Ctx.doc soup) e
      (exceptMap_error ctxStr _ e he)

/-- Witness for C4: the spec's own example — path `#a|#b` against a
document where `#a` exists but contains no `#b` — refines the spec fold
and fails with the message naming `#b` and the original path. -/
theorem claim4_selector_descent_witness :
    extract_element matchById "h" [HNode.elem "div" [("id", "a")] []] "#a|#b" =
      Except.map ctxStr (descendSpec matchById "#a|#b" [HNode.elem "div" [("id", "a")] []]) ∧
    (∃ sel ∈ parseSelectors "#a|#b", errMsg "#b" "#a|#b" = errMsg sel "#a|#b") :=
  ⟨(claim4_selector_descent matchById "h" [HNode.elem "div" [("id", "a")] []] "#a|#b"
      (by decide)).1,
    (claim4_selector_descent matchById "h" [HNode.elem "div" [("id", "a")] []] "#a|#b"
      (by decide)).2 (errMsg "#b" "#a|#b") (by decide)⟩

/-- Claim C5: for a blank selector path, `extract_element` returns the
serialized markup of the document's first `body` element — whose
serialization starts with its own `<body` tag — and returns the whole
input string unchanged when the document has no `body` element. -/
theorem claim5_blank_path_body (m : String → String → List (String × String) → Bool)
    (html : String) (soup : List HNode) (path : String)
    (hblank : path = "" ∨ pyStrip path = "") :
    (findBody soup = none → extract_element m html soup path = Except.ok html) ∧
    (∀ b, findBody soup = some b →
      extract_element m html soup path = Except.ok (render b) ∧
      ∃ t, (render b).data = '<' :: 'b' :: 'o' :: 'd' :: 'y' :: t) := by
  constructor
  · intro hnone
    rw [extract_element, if_pos hblank, hnone]
  · intro b hb
    refine ⟨by rw [extract_element, if_pos hblank, hb], ?_⟩
    obtain ⟨attrs, cs, rfl⟩ := findBody_shape soup b hb
    rw [show render (HNode.elem "body" attrs cs) =
        "<" ++ "body" ++ renderAttrs attrs ++ ">" ++ renderList cs ++ "</" ++ "body" ++ ">"
      from rfl]
    refine ⟨(renderAttrs attrs ++ ">" ++ renderList cs ++ "</" ++ "body" ++ ">").data, ?_⟩
    simp only [String.data_append, List.append_assoc]
    rfl

/-- Witness for C5: the body branch on a concrete document and the
no-body fallback on a concrete fragment. -/
theorem claim5_blank_path_body_witness :
    extract_element matchById "<body>x</body>"
      [HNode.elem "html" [] [HNode.elem "body" [] [HNode.text "x"]]] "" =
      Except.ok (render (HNode.elem "body" [] [HNode.text "x"])) ∧
    extract_element matchById "frag" [HNode.elem "p" [] [HNode.text "no body here"]] " " =
      Except.ok "frag" :=
  ⟨((claim5_blank_path_body matchById "<body>x</body>"
      [HNode.elem "html" [] [HNode.elem "body" [] [HNode.text "x"]]] "" (Or.inl rfl)).2
      (HNode.elem "body" [] [HNode.text "x"]) (by rfl)).1,
    (claim5_blank_path_body matchById "frag" [HNode.elem "p" [] [HNode.text "no body here"]]
      " " (Or.inr (by decide))).1 (by rfl)⟩

/-- Claim C10: a selector path that is not blank but parses to zero
selectors (for example `|` or ` | `) takes the non-empty branch with an
empty selector list and returns the serialization of the entire parsed
document — not the body's markup and not an error. -/
theorem claim10_no_selectors_whole_document
    (m : String → String → List (String × String) → Bool)
    (html : String) (soup : List HNode) (path : String)
    (hnot : ¬(path = "" ∨ pyStrip path = "")) (hsel : parseSelectors path = []) :
    extract_element m html soup path = Except.ok (renderList soup) := by
  rw [extract_element, if_neg hnot, hsel]
  rfl

/-- Witness for C10: path `|` on a document with a `body` yields the whole
document's markup, which here differs from the body's own markup. -/
theorem claim10_no_selectors_whole_document_witness :
    extract_element matchById "raw"
      [HNode.elem "html" [] [HNode.elem "body" [] [HNode.text "x"]]] "|" =
      Except.ok (renderList [HNode.elem "html" [] [HNode.elem "body" [] [HNode.text "x"]]]) ∧
    renderList [HNode.elem "html" [] [HNode.elem "body" [] [HNode.text "x"]]] =
      "<html><body>x</body></html>" ∧
    render (HNode.elem "body" [] [HNode.text "x"]) = "<body>x</body>" :=
  ⟨claim10_no_selectors_whole_document matchById "raw"
      [HNode.elem "html" [] [HNode.elem "body" [] [HNode.text "x"]]] "|"
      (by decide) (by decide),
    by decide, by decide⟩

/-! ### Normalizer lemmas -/

/-- The head of a `dropWhile` result never satisfies the predicate. -/
theorem dropWhile_head_not (p : Char → Bool) :
    ∀ (l : List Char) (c : Char), (l.dropWhile p).head? = some c → p c = false := by
  intro l
  induction l with
  | nil =>
    intro c h
    simp at h
  | cons a rest ih =>
    intro c h
    rw [List.dropWhile_cons] at h
    by_cases hp : p a = true
    · rw [if_pos hp] at h
      exact ih c h
    · rw [if_neg hp] at h
      simp only [List.head?_cons, Option.some.injEq] at h
      subst h
      simpa using hp

/-- `dropWhile` is the identity when the head does not satisfy the
predicate. -/
theorem dropWhile_eq_self_of_head (p : Char → Bool) (l : List Char)
    (h : ∀ c, l.head? = some c → p c = false) : l.dropWhile p = l := by
  cases l with
  | nil => rfl
  | cons a rest => simp [List.dropWhile_cons, h a rfl]

/-- The first character of a stripped-left list is not whitespace. -/
theorem trimL_head_not (l : List Char) (c : Char) (h : (trimL l).head? = some c) :
    isWS c = false :=
  dropWhile_head_not isWS l c h

/-- The last character of a stripped-right list is not whitespace. -/
theorem trimR_getLast_not (l : List Char) (c : Char) (h : (trimR l).getLast? = some c) :
    isWS c = false := by
  unfold trimR at h
  rw [List.getLast?_reverse] at h
  exact dropWhile_head_not isWS l.reverse c h

/-- Stripping on the right does not touch the head of the list. -/
theorem trimR_head (l : List Char) (h : trimR l ≠ []) : (trimR l).head? = l.head? := by
  obtain ⟨t, ht⟩ := List.dropWhile_suffix (l := l.reverse) isWS
  have hl : l = trimR l ++ t.reverse := by
    have h2 := congrArg List.reverse ht
    rw [List.reverse_append, List.reverse_reverse] at h2
    exact h2.symm
  conv_rhs => rw [hl]
  rw [List.head?_append_of_ne_nil _ h]

/-- The first character of a `str.strip()` result is not whitespace. -/
theorem stripChars_head_not (l : List Char) (c : Char)
    (h : (stripChars l).head? = some c) : isWS c = false := by
  unfold stripChars at h
  by_cases hn : trimR (trimL l) = []
  · rw [hn] at h
    simp at h
  · rw [trimR_head _ hn] at h
    exact trimL_head_not l c h

/-- The last character of a `str.strip()` result is not whitespace. -/
theorem stripChars_getLast_not (l : List Char) (c : Char)
    (h : (stripChars l).getLast? = some c) : isWS c = false :=
  trimR_getLast_not (trimL l) c h

/-- `str.strip()` is the identity on lists with non-whitespace ends. -/
theorem stripChars_eq_self (l : List Char)
    (hh : ∀ c, l.head? = some c → isWS c = false)
    (hl : ∀ c, l.getLast? = some c → isWS c = false) : stripChars l = l := by
  unfold stripChars trimL trimR
  rw [dropWhile_eq_self_of_head isWS l hh]
  rw [dropWhile_eq_self_of_head isWS l.reverse (fun c hc => by
    rw [List.head?_reverse] at hc
    exact hl c hc)]
  exact List.reverse_reverse l

/-- `str.strip()` is idempotent. -/
theorem stripChars_idem (l : List Char) : stripChars (stripChars l) = stripChars l :=
  stripChars_eq_self _ (stripChars_head_not l) (stripChars_getLast_not l)

/-- A separator-join of a non-empty first fragment starts with it. -/
theorem joinWS_ne_nil (f : List Char) (fs : List (List Char)) (hf : f ≠ []) :
    joinWS (f :: fs) ≠ [] := by
  cases fs with
  | nil => simpa [joinWS] using hf
  | cons g rest => simp [joinWS]

/-- The head of a separator-join is the head of its first fragment. -/
theorem joinWS_head (f : List Char) (fs : List (List Char)) (hf : f ≠ []) :
    (joinWS (f :: fs)).head? = f.head? := by
  cases fs with
  | nil => rfl
  | cons g rest => simp [joinWS, List.head?_append_of_ne_nil f hf]

/-- The last character of a separator-join of non-empty fragments is the
last character of one of the fragments. -/
theorem joinWS_getLast :
    ∀ (fs : List (List Char)) (c : Char), (∀ f ∈ fs, f ≠ []) →
      (joinWS fs).getLast? = some c → ∃ f ∈ fs, f.getLast? = some c := by
  intro fs
  induction fs with
  | nil =>
    intro c _ h
    simp [joinWS] at h
  | cons f rest ih =>
    intro c hne h
    cases rest with
    | nil => exact ⟨f, by simp, by simpa [joinWS] using h⟩
    | cons g rest2 =>
      rw [show joinWS (f :: g :: rest2) = f ++ ' ' :: joinWS (g :: rest2) from rfl] at h
      have hgl : joinWS (g :: rest2) ≠ [] := joinWS_ne_nil g rest2 (hne g (by simp))
      rw [show (' ' :: joinWS (g :: rest2) : List Char) = [' '] ++ joinWS (g :: rest2) from rfl,
        ← List.append_assoc] at h
      rw [List.getLast?_append_of_ne_nil _ hgl] at h
      obtain ⟨f2, hmem, hf2⟩ := ih c (fun x hx => hne x (List.mem_cons_of_mem f hx)) h
      exact ⟨f2, List.mem_cons_of_mem f hmem, hf2⟩

/-- Every fragment produced by `textFrags` is non-empty and already
stripped. -/
theorem textFrags_stripped (l : List HNode) :
    ∀ f ∈ textFrags l, f ≠ [] ∧ stripChars f = f := by
  refine textFrags.induct (fun n => ∀ f ∈ textFragsN n, f ≠ [] ∧ stripChars f = f)
    (fun l => ∀ f ∈ textFrags l, f ≠ [] ∧ stripChars f = f) ?_ ?_ ?_ ?_ ?_ l
  · intro s h f hf
    simp [textFragsN, h] at hf
  · intro s h f hf
    simp only [textFragsN, if_neg h, List.mem_singleton] at hf
    subst hf
    exact ⟨h, stripChars_idem s.data⟩
  · intro nm attrs cs ih f hf
    exact ih f hf
  · intro f hf
    simp [textFrags] at hf
  · intro n rest ih1 ih2 f hf
    rw [show textFrags (n :: rest) = textFragsN n ++ textFrags rest from rfl] at hf
    rcases List.mem_append.mp hf with h | h
    · exact ih1 f h
    · exact ih2 f h

/-- The characters of a normalized document are already stripped: the
output has no leading and no trailing whitespace. -/
theorem normChars_stripped (soup : List HNode) :
    stripChars (joinWS (textFrags (removeHidden soup))) =
      joinWS (textFrags (removeHidden soup)) := by
  have hstr := textFrags_stripped (removeHidden soup)
  apply stripChars_eq_self
  · intro c hc
    cases hfs : textFrags (removeHidden soup) with
    | nil =>
      rw [hfs] at hc
      simp [joinWS] at hc
    | cons f fs2 =>
      rw [hfs] at hc
      have hf := hstr f (by rw [hfs]; simp)
      rw [joinWS_head f fs2 hf.1] at hc
      exact stripChars_head_not f c (by rw [hf.2]; exact hc)
  · intro c hc
    obtain ⟨f, hmem, hfl⟩ := joinWS_getLast _ c (fun x hx => (hstr x hx).1) hc
    exact stripChars_getLast_not f c (by rw [(hstr f hmem).2]; exact hfl)

/-- `anyHidden` distributes over forest concatenation. -/
theorem anyHidden_append (a b : List HNode) :
    anyHidden (a ++ b) = (anyHidden a || anyHidden b) := by
  induction a with
  | nil => simp [anyHidden]
  | cons n rest ih =>
    rw [List.cons_append]
    rw [show anyHidden (n :: (rest ++ b)) = (anyHiddenN n || anyHidden (rest ++ b)) from rfl]
    rw [show anyHidden (n :: rest) = (anyHiddenN n || anyHidden rest) from rfl]
    rw [ih, Bool.or_assoc]

/-- After `removeHidden`, no `type="hidden"` element remains at any depth. -/
theorem anyHidden_removeHidden (l : List HNode) : anyHidden (removeHidden l) = false := by
  refine removeHidden.induct (fun n => anyHidden (removeHiddenN n) = false)
    (fun l => anyHidden (removeHidden l) = false) ?_ ?_ ?_ ?_ ?_ l
  · intro s
    simp [removeHiddenN, anyHidden, anyHiddenN]
  · intro nm attrs cs hh
    simp [removeHiddenN, hh, anyHidden]
  · intro nm attrs cs hh ih
    simp [removeHiddenN, hh, anyHidden, anyHiddenN, ih]
  · simp [removeHidden, anyHidden]
  · intro n rest ih1 ih2
    rw [show removeHidden (n :: rest) = removeHiddenN n ++ removeHidden rest from rfl]
    rw [anyHidden_append, ih1, ih2]
    rfl

/-- A forest with no hidden element is untouched by `removeHidden`. -/
theorem removeHidden_of_clean (l : List HNode) (h : anyHidden l = false) :
    removeHidden l = l := by
  refine removeHidden.induct (fun n => anyHiddenN n = false → removeHiddenN n = [n])
    (fun l => anyHidden l = false → removeHidden l = l) ?_ ?_ ?_ ?_ ?_ l h
  · intro s _
    rfl
  · intro nm attrs cs hh hclean
    rw [show anyHiddenN (HNode.elem nm attrs cs) = (isHidden attrs || anyHidden cs) from rfl,
      hh] at hclean
    simp at hclean
  · intro nm attrs cs hh ih hclean
    rw [show anyHiddenN (HNode.elem nm attrs cs) = (isHidden attrs || anyHidden cs) from rfl] at hclean
    simp only [Bool.or_eq_false_iff] at hclean
    rw [show removeHiddenN (HNode.elem nm attrs cs) =
        (if isHidden attrs then [] else [HNode.elem nm attrs (removeHidden cs)]) from rfl]
    rw [if_neg (by simp [hclean.1])]
    rw [ih hclean.2]
  · intro _
    rfl
  · intro n rest ih1 ih2 hclean
    rw [show anyHidden (n :: rest) = (anyHiddenN n || anyHidden rest) from rfl] at hclean
    simp only [Bool.or_eq_false_iff] at hclean
    rw [show removeHidden (n :: rest) = removeHiddenN n ++ removeHidden rest from rfl]
    rw [ih1 hclean.1, ih2 hclean.2]
    rfl

/-- Claim C6: `normalize_html` removes every element whose `type` attribute
equals the literal string `hidden`, together with that element's entire
subtree (no hidden element survives the removal pass, and a document with
no hidden element is untouched by it), before extracting text; in
particular `<input type="hidden" value="v"><p>Visible</p>` normalizes to
exactly `Visible`. -/
theorem claim6_hidden_subtrees_removed :
    (∀ soup : List HNode, anyHidden (removeHidden soup) = false) ∧
    (∀ soup : List HNode, anyHidden soup = false → removeHidden soup = soup) ∧
    normalize_html [HNode.elem "input" [("type", "hidden"), ("value", "v")] [],
      HNode.elem "p" [] [HNode.text "Visible"]] = "Visible" :=
  ⟨anyHidden_removeHidden, removeHidden_of_clean, by decide⟩

/-- Witness for C6: the removal pass leaves a concrete mixed document
hidden-free, and the no-hidden hypothesis of the preservation part is
discharged on a concrete clean document. -/
theorem claim6_hidden_subtrees_removed_witness :
    anyHidden (removeHidden [HNode.elem "div" []
      [HNode.elem "input" [("type", "hidden")] [], HNode.text "keep"]]) = false ∧
    removeHidden [HNode.elem "p" [] [HNode.text "t"]] =
      [HNode.elem "p" [] [HNode.text "t"]] :=
  ⟨claim6_hidden_subtrees_removed.1 _,
    claim6_hidden_subtrees_removed.2.1 [HNode.elem "p" [] [HNode.text "t"]] (by decide)⟩

/-- Claim C7 (corrected): the output of `normalize_html` is a fixed point
of `str.strip()` — it never has leading or trailing whitespace — and is the
single-space join of the stripped non-empty text fragments of the document
with hidden subtrees removed.  (Whitespace runs inside a single text
fragment are preserved, so the output is not always fully
whitespace-collapsed; see the counterexample.) -/
theorem claim7_output_trimmed (soup : List HNode) :
    pyStrip (normalize_html soup) = normalize_html soup ∧
    normalize_html soup = String.mk (joinWS (textFrags (removeHidden soup))) := by
  constructor
  · show String.mk (stripChars (normalize_html soup).data) = normalize_html soup
    rw [show (normalize_html soup).data = joinWS (textFrags (removeHidden soup)) from rfl]
    rw [normChars_stripped]
    rfl
  · rfl

/-- Counterexample to C7 as stated: a double space inside one text node
survives normalization, so the output contains a run of two whitespace
characters. -/
theorem claim7_counterexample :
    normalize_html [HNode.elem "p" [] [HNode.text "a  b"]] = "a  b" ∧
    wsCollapsed (normalize_html [HNode.elem "p" [] [HNode.text "a  b"]]) = false := by
  constructor
  · decide
  · decide

/-- Claim C8: `normalize_html` is idempotent.  Its output is plain
whitespace-collapsed text; re-parsing it as markup is modelled — as the
spec itself stipulates ("whitespace-collapsed text re-parsed yields the
same text") — as the document consisting of that single text node, and
normalizing that document returns the same string. -/
theorem claim8_normalize_idempotent (soup : List HNode) :
    normalize_html [HNode.text (normalize_html soup)] = normalize_html soup := by
  show String.mk (joinWS (textFrags (removeHidden [HNode.text (normalize_html soup)]))) = _
  rw [show removeHidden [HNode.text (normalize_html soup)] =
      [HNode.text (normalize_html soup)] from rfl]
  rw [show textFrags [HNode.text (normalize_html soup)] =
      (if stripChars (normalize_html soup).data = []
        then ([] : List (List Char)) else [stripChars (normalize_html soup).data]) ++ [] from rfl]
  rw [List.append_nil]
  rw [show (normalize_html soup).data = joinWS (textFrags (removeHidden soup)) from rfl]
  rw [normChars_stripped]
  cases h : joinWS (textFrags (removeHidden soup)) with
  | nil =>
    rw [if_pos rfl]
    rw [show normalize_html soup = String.mk (joinWS (textFrags (removeHidden soup))) from rfl, h]
    rfl
  | cons a rest =>
    rw [if_neg (by simp)]
    rw [show normalize_html soup = String.mk (joinWS (textFrags (removeHidden soup))) from rfl, h]
    rfl

/-! ### Diff lemmas -/

/-- The defining equation of `takeLine` on a non-empty list. -/
theorem takeLine_cons (c : Char) (rest : List Char) :
    takeLine (c :: rest) =
      if c = '\r' then
        match rest with
        | d :: rest2 => if d = '\n' then (['\r', '\n'], rest2) else (['\r'], d :: rest2)
        | [] => (['\r'], [])
      else if isLineBreak c then ([c], rest)
      else (c :: (takeLine rest).1, (takeLine rest).2) := rfl

/-- A split-off line contains at most one newline character (its
terminator). -/
theorem takeLine_count_nl (l : List Char) : ((takeLine l).1).count '\n' ≤ 1 := by
  induction l with
  | nil => simp [takeLine]
  | cons c rest ih =>
    rw [takeLine_cons]
    by_cases hr : c = '\r'
    · rw [if_pos hr]
      cases rest with
      | nil => decide
      | cons d rest2 =>
        dsimp only
        by_cases hd : d = '\n'
        · rw [if_pos hd]
          dsimp only
          decide
        · rw [if_neg hd]
          dsimp only
          decide
    · rw [if_neg hr]
      by_cases hb : isLineBreak c = true
      · rw [if_pos hb]
        exact le_trans (List.count_le_length _ _) (by simp)
      · rw [if_neg hb]
        have hc : ¬c = '\n' := fun hc => hb (by rw [hc]; decide)
        simp [List.count_cons, hc, ih]

/-- Splitting off a line strictly shrinks a non-empty list. -/
theorem takeLine_rest_lt : ∀ (l : List Char), l ≠ [] → ((takeLine l).2).length < l.length := by
  intro l
  induction l with
  | nil => intro h; exact absurd rfl h
  | cons c rest ih =>
    intro _
    rw [takeLine_cons]
    by_cases hr : c = '\r'
    · rw [if_pos hr]
      cases rest with
      | nil => simp
      | cons d rest2 =>
        dsimp only
        by_cases hd : d = '\n'
        · rw [if_pos hd]
          dsimp only
          simp only [List.length_cons]
          omega
        · rw [if_neg hd]
          dsimp only
          simp only [List.length_cons]
          omega
    · rw [if_neg hr]
      by_cases hb : isLineBreak c = true
      · rw [if_pos hb]
        simp
      · rw [if_neg hb]
        cases rest with
        | nil => simp [takeLine]
        | cons d rest2 =>
          have hlt := ih (by simp)
          simp only [List.length_cons] at hlt ⊢
          omega

/-- Every piece of the keepends split contains at most one newline. -/
theorem splitLinesF_count_nl : ∀ (fuel : Nat) (l : List Char), l.length ≤ fuel →
    ∀ p ∈ splitLinesF fuel l, p.count '\n' ≤ 1 := by
  intro fuel
  induction fuel with
  | zero =>
    intro l hl p hp
    have : l = [] := List.eq_nil_of_length_eq_zero (Nat.le_zero.mp hl)
    subst this
    simp [splitLinesF] at hp
  | succ fuel ih =>
    intro l hl p hp
    cases l with
    | nil => simp [splitLinesF] at hp
    | cons c rest =>
      rw [show splitLinesF (fuel + 1) (c :: rest) =
          (takeLine (c :: rest)).1 :: splitLinesF fuel ((takeLine (c :: rest)).2) from rfl] at hp
      rcases List.mem_cons.mp hp with rfl | hp2
      · exact takeLine_count_nl (c :: rest)
      · have hlt := takeLine_rest_lt (c :: rest) (by simp)
        refine ih _ ?_ p hp2
        simp only [List.length_cons] at hl hlt
        omega

/-- Every line of `content.splitlines(keepends=True)` contains at most one
newline character. -/
theorem pySplitlines_count_nl (s : String) :
    ∀ p ∈ pySplitlines s, p.data.count '\n' ≤ 1 := by
  intro p hp
  unfold pySplitlines at hp
  rw [List.mem_map] at hp
  obtain ⟨l, hl, rfl⟩ := hp
  exact splitLinesF_count_nl s.data.length s.data le_rfl l hl

/-- Decimal digits are never the newline character. -/
theorem digitChar_ne_nl (d : Nat) : digitChar d ≠ '\n' := by
  by_cases h : d < 10
  · interval_cases d <;> decide
  · unfold digitChar
    rw [List.getD_eq_default]
    · decide
    · simp only [digitChars, List.length_cons, List.length_nil]
      omega

/-- The digit expansion contains no newline. -/
theorem natReprAux_count_nl : ∀ (fuel n : Nat), (natReprAux fuel n).count '\n' = 0 := by
  intro fuel
  induction fuel with
  | zero =>
    intro n
    cases n <;> rfl
  | succ fuel ih =>
    intro n
    cases n with
    | zero => rfl
    | succ n2 =>
      rw [show natReprAux (fuel + 1) (n2 + 1) =
          natReprAux fuel ((n2 + 1) / 10) ++ [digitChar ((n2 + 1) % 10)] from rfl]
      rw [List.count_append, ih]
      simp [List.count_cons, digitChar_ne_nl ((n2 + 1) % 10)]

/-- A rendered number contains no newline. -/
theorem natRepr_count_nl (n : Nat) : (natRepr n).data.count '\n' = 0 := by
  unfold natRepr
  split
  · decide
  · exact natReprAux_count_nl n n

/-- Newline counting distributes over string append. -/
theorem count_nl_append (p s : String) :
    (p ++ s).data.count '\n' = p.data.count '\n' + s.data.count '\n' := by
  rw [String.data_append, List.count_append]

/-- A hunk range description contains no newline. -/
theorem formatRangeUnified_count_nl (a b : Nat) :
    (formatRangeUnified a b).data.count '\n' = 0 := by
  simp only [formatRangeUnified]
  split
  · exact natRepr_count_nl _
  · rw [count_nl_append, count_nl_append, natRepr_count_nl, natRepr_count_nl]
    decide

/-- A slice only contains elements of the sliced list. -/
theorem mem_sliceList {α : Type} {s : α} {l : List α} {i j : Nat}
    (h : s ∈ sliceList l i j) : s ∈ l :=
  List.mem_of_mem_drop (List.mem_of_mem_take h)

/-- Every content line an opcode emits has at most one newline, given that
the input lines do. -/
theorem opLines_count_nl (a b : List String)
    (ha : ∀ s ∈ a, s.data.count '\n' ≤ 1) (hb : ∀ s ∈ b, s.data.count '\n' ≤ 1)
    (c : Opcode) : ∀ e ∈ opLines a b c, e.data.count '\n' ≤ 1 := by
  have hpre : ∀ (p s : String), p.data.count '\n' = 0 → s.data.count '\n' ≤ 1 →
      (p ++ s).data.count '\n' ≤ 1 := by
    intro p s h1 h2
    rw [count_nl_append, h1]
    omega
  intro e he
  obtain ⟨tag, i1, i2, j1, j2⟩ := c
  cases tag with
  | equal =>
    simp only [opLines] at he
    rw [List.mem_map] at he
    obtain ⟨s, hs, rfl⟩ := he
    exact hpre _ _ (by decide) (ha s (mem_sliceList hs))
  | delete =>
    simp only [opLines] at he
    rw [List.mem_map] at he
    obtain ⟨s, hs, rfl⟩ := he
    exact hpre _ _ (by decide) (ha s (mem_sliceList hs))
  | insert =>
    simp only [opLines] at he
    rw [List.mem_map] at he
    obtain ⟨s, hs, rfl⟩ := he
    exact hpre _ _ (by decide) (hb s (mem_sliceList hs))
  | replace =>
    simp only [opLines] at he
    rcases List.mem_append.mp he with h | h
    · rw [List.mem_map] at h
      obtain ⟨s, hs, rfl⟩ := h
      exact hpre _ _ (by decide) (ha s (mem_sliceList hs))
    · rw [List.mem_map] at h
      obtain ⟨s, hs, rfl⟩ := h
      exact hpre _ _ (by decide) (hb s (mem_sliceList hs))

/-- Every line of a formatted hunk has at most one newline. -/
theorem formatGroup_count_nl (a b : List String)
    (ha : ∀ s ∈ a, s.data.count '\n' ≤ 1) (hb : ∀ s ∈ b, s.data.count '\n' ≤ 1)
    (g : List Opcode) : ∀ e ∈ formatGroup a b g, e.data.count '\n' ≤ 1 := by
  intro e he
  cases g with
  | nil => simp [formatGroup] at he
  | cons first rest =>
    simp only [formatGroup] at he
    rcases List.mem_cons.mp he with rfl | he2
    · rw [count_nl_append, count_nl_append, count_nl_append, count_nl_append,
        formatRangeUnified_count_nl, formatRangeUnified_count_nl]
      decide
    · rw [List.mem_flatten] at he2
      obtain ⟨li, hli, hei⟩ := he2
      rw [List.mem_map] at hli
      obtain ⟨oc, hoc, rfl⟩ := hli
      exact opLines_count_nl a b ha hb oc e hei

/-- The unified diff output is empty or consists of the two headers
followed by lines carrying at most one newline each. -/
theorem unifiedDiff_shape_nl (a b : List String)
    (ha : ∀ s ∈ a, s.data.count '\n' ≤ 1) (hb : ∀ s ∈ b, s.data.count '\n' ≤ 1) :
    unifiedDiff a b = [] ∨
    ∃ tail, unifiedDiff a b = "--- Previous" :: "+++ Current" :: tail ∧
      ∀ e ∈ tail, e.data.count '\n' ≤ 1 := by
  simp only [unifiedDiff]
  cases hg : groupedOpcodes 2 (toOpcodes (lcsOps a b)) with
  | nil => exact Or.inl rfl
  | cons g gs =>
    refine Or.inr ⟨((g :: gs).map (formatGroup a b)).flatten, rfl, ?_⟩
    intro e he
    rw [List.mem_flatten] at he
    obtain ⟨fl, hfl, hefl⟩ := he
    rw [List.mem_map] at hfl
    obtain ⟨grp, hgrp, rfl⟩ := hfl
    exact formatGroup_count_nl a b ha hb grp e hefl

/-- A sum of at-most-one values over a take is bounded by the count taken. -/
theorem sum_map_take_le (f : String → Nat) : ∀ (l : List String) (k : Nat),
    (∀ x ∈ l, f x ≤ 1) → ((l.take k).map f).sum ≤ k := by
  intro l
  induction l with
  | nil =>
    intro k h
    simp
  | cons x rest ih =>
    intro k h
    cases k with
    | zero => simp
    | succ k2 =>
      rw [List.take_succ_cons, List.map_cons, List.sum_cons]
      have h1 := h x (by simp)
      have h2 := ih k2 (fun y hy => h y (by simp [hy]))
      omega

/-- A sum of at-most-one values is bounded by the list length. -/
theorem sum_map_le_length (f : String → Nat) (l : List String)
    (h : ∀ x ∈ l, f x ≤ 1) : (l.map f).sum ≤ l.length := by
  have := sum_map_take_le f l l.length h
  rwa [List.take_length] at this

/-- Newline counting distributes over the empty-separator join. -/
theorem count_concatAll (c : Char) : ∀ l : List String,
    (concatAll l).data.count c = (l.map (fun s => s.data.count c)).sum := by
  intro l
  induction l with
  | nil => rfl
  | cons s rest ih =>
    rw [show concatAll (s :: rest) = s ++ concatAll rest from rfl,
      String.data_append, List.count_append, ih, List.map_cons, List.sum_cons]

/-- The truncation marker spans exactly one newline (its own leading one). -/
theorem truncMarker_count_nl (m : Nat) : (truncMarker m).data.count '\n' = 1 := by
  unfold truncMarker
  rw [count_nl_append, count_nl_append, natRepr_count_nl]
  decide

/-- The joined diff text never contains more than `max_lines` newline
characters, for `max_lines ≥ 1`. -/
theorem generate_diff_count_nl (old_content new_content : String) (m : Nat) (hm : 1 ≤ m) :
    (generate_diff old_content new_content m).data.count '\n' ≤ m := by
  have ha := pySplitlines_count_nl old_content
  have hb := pySplitlines_count_nl new_content
  rw [show generate_diff old_content new_content m =
      concatAll (finalDiffLines old_content new_content m) from rfl]
  rw [count_concatAll]
  rw [show finalDiffLines old_content new_content m =
      (if (diffLinesOf old_content new_content).length > m
        then (diffLinesOf old_content new_content).take m ++ [truncMarker m]
        else diffLinesOf old_content new_content) from rfl]
  rcases unifiedDiff_shape_nl (pySplitlines old_content) (pySplitlines new_content) ha hb
    with hsh | ⟨tail, hsh, htail⟩
  · rw [show diffLinesOf old_content new_content =
        unifiedDiff (pySplitlines old_content) (pySplitlines new_content) from rfl, hsh]
    rw [if_neg (by simp)]
    simp
  · rw [show diffLinesOf old_content new_content =
        unifiedDiff (pySplitlines old_content) (pySplitlines new_content) from rfl, hsh]
    have h0 : ("--- Previous" : String).data.count '\n' = 0 := by decide
    have h1 : ("+++ Current" : String).data.count '\n' = 0 := by decide
    by_cases htr : ("--- Previous" :: "+++ Current" :: tail).length > m
    · rw [if_pos htr]
      rw [List.map_append, List.sum_append]
      cases m with
      | zero => omega
      | succ m2 =>
        rw [List.take_succ_cons, List.map_cons, List.sum_cons]
        have hsum : ((("+++ Current" :: tail).take m2).map
            (fun s => s.data.count '\n')).sum ≤ m2 := by
          refine sum_map_take_le _ _ m2 ?_
          intro x hx
          rcases List.mem_cons.mp hx with rfl | hx2
          · omega
          · exact htail x hx2
        have hmark : (([truncMarker (m2 + 1)]).map (fun s => s.data.count '\n')).sum = 1 := by
          simp [truncMarker_count_nl]
        rw [hmark, h0]
        omega
    · rw [if_neg htr]
      rw [List.map_cons, List.map_cons, List.sum_cons, List.sum_cons, h0, h1]
      have hsum := sum_map_le_length (fun s => s.data.count '\n') tail htail
      simp only [List.length_cons, gt_iff_lt, not_lt] at htr
      omega

/-- Claim C9 (corrected, for `maxLines ≥ 1`): the diff text spans at most
`maxLines + 1` lines; the final line list itself has at most `maxLines + 1`
entries; when the untruncated diff produces at most `maxLines` lines no
marker is appended (the output is exactly the joined diff); and when it
produces more, the output is the first `maxLines` diff lines followed by
the truncation marker stating how many were shown.  (At `maxLines = 0` the
line-count bound fails; see the counterexample.) -/
theorem claim9_truncation (old_content new_content : String) (m : Nat) (hm : 1 ≤ m) :
    numLines (generate_diff old_content new_content m) ≤ m + 1 ∧
    (finalDiffLines old_content new_content m).length ≤ m + 1 ∧
    ((diffLinesOf old_content new_content).length ≤ m →
      finalDiffLines old_content new_content m = diffLinesOf old_content new_content) ∧
    ((diffLinesOf old_content new_content).length > m →
      finalDiffLines old_content new_content m =
        (diffLinesOf old_content new_content).take m ++ [truncMarker m]) := by
  have hfin : finalDiffLines old_content new_content m =
      (if (diffLinesOf old_content new_content).length > m
        then (diffLinesOf old_content new_content).take m ++ [truncMarker m]
        else diffLinesOf old_content new_content) := rfl
  refine ⟨?_, ?_, ?_, ?_⟩
  · have := generate_diff_count_nl old_content new_content m hm
    unfold numLines
    omega
  · rw [hfin]
    by_cases h : (diffLinesOf old_content new_content).length > m
    · rw [if_pos h]
      rw [List.length_append, List.length_take]
      simp only [List.length_cons, List.length_nil]
      omega
    · rw [if_neg h]
      simp only [gt_iff_lt, not_lt] at h
      omega
  · intro h
    rw [hfin, if_neg (by omega)]
  · intro h
    rw [hfin, if_pos h]

/-- Witness for C9 at the default cap of 30 with a short concrete diff. -/
theorem claim9_truncation_witness :
    numLines (generate_diff "a" "b" 30) ≤ 31 ∧
    finalDiffLines "a" "b" 30 = diffLinesOf "a" "b" :=
  ⟨(claim9_truncation "a" "b" 30 (by decide)).1,
    (claim9_truncation "a" "b" 30 (by decide)).2.2.1 (by decide)⟩

/-- Counterexample to C9 as stated: at `maxLines = 0` the returned text is
the truncation marker alone, which spans two lines, exceeding
`maxLines + 1 = 1`. -/
theorem claim9_counterexample :
    generate_diff "a" "b" 0 = "\n... (truncated, showing first 0 lines)" ∧
    numLines (generate_diff "a" "b" 0) = 2 ∧
    ¬(numLines (generate_diff "a" "b" 0) ≤ 0 + 1) := by
  refine ⟨by decide, by decide, by decide⟩

end PageNotifier
